import Mathlib

/-!
Verification of the hnapi Go client library: a shallow embedding of the
batch item fetcher (GetItemsBatch), the update polling loop (StartUpdates,
pollUpdates) and the shared HTTP request primitive (makeRequest), together
with proofs of the contract stated in the repository's specification.

Durations are modelled in nanoseconds (Go time.Duration), machine integers
as Nat/Int, Go errors as an inductive type where fmt.Errorf with the %w
verb becomes an explicit wrap constructor, and nil-able results as Option.
-/

namespace HNApi

/-- One nanosecond, the unit of Go time.Duration. -/
def nanosecond : Nat := 1

/-- Go time.Second in nanoseconds. -/
def second : Nat := 1000000000

/-- Go error values produced by the library.  fmt.Errorf("...: %w", err)
is modelled by the wrap constructor keeping the inner error intact, which
is what errors.Is / errors.Unwrap observe. -/
inductive GoErr where
  | transport (msg : String)
  | unexpectedStatus (code : Nat)
  | nullResponse
  | unmarshal
  | contextCanceled
  | wrap (msg : String) (inner : GoErr)
deriving DecidableEq, Repr

/-- Go errors.Is: e is target, or e transitively wraps target. -/
def errorsIs : GoErr → GoErr → Bool
  | GoErr.wrap m inner, target =>
      if GoErr.wrap m inner = target then true else errorsIs inner target
  | e, target => if e = target then true else false

/-- An Item of the Hacker News API (models.go). -/
structure Item where
  ID : Int
  Deleted : Bool
  «Type» : String
  By : String
  Time : Int
  Text : String
  Dead : Bool
  Parent : Int
  Poll : Int
  Kids : List Int
  URL : String
  Score : Int
  Title : String
  Parts : List Int
  Descendants : Int
deriving DecidableEq, Repr

/-- The decoded payload of the updates.json endpoint (models.go). -/
structure Updates where
  Items : List Int
  Profiles : List String
deriving DecidableEq, Repr

/-- Model of the Go http.Client: the only behaviour the library depends on
is its Timeout field (0 means no timeout, as on http.DefaultClient). -/
structure HttpClient where
  Timeout : Nat
deriving DecidableEq, Repr

/-- Client configuration (Config struct of the source). -/
structure Config where
  BaseURL : String
  RequestTimeout : Nat
  MaxRetries : Nat
  BackoffInterval : Nat
  PollInterval : Nat
  Concurrency : Nat
  HTTPClient : HttpClient
deriving DecidableEq, Repr

/-- DefaultConfig of the source: 10 s request timeout, 3 retries, 2 s
backoff, 30 s poll interval, concurrency 10, http.DefaultClient (which has
no timeout of its own). -/
def DefaultConfig : Config :=
  { BaseURL := "https://hacker-news.firebaseio.com/v0/"
    RequestTimeout := 10 * second
    MaxRetries := 3
    BackoffInterval := 2 * second
    PollInterval := 30 * second
    Concurrency := 10
    HTTPClient := { Timeout := 0 } }

/-- A functional option mutating the configuration. -/
def ClientOption : Type := Config → Config

/-- WithConcurrency option of the source. -/
def WithConcurrency (n : Nat) : ClientOption := fun cfg => { cfg with Concurrency := n }

/-- WithRequestTimeout option of the source. -/
def WithRequestTimeout (t : Nat) : ClientOption := fun cfg => { cfg with RequestTimeout := t }

/-- WithPollInterval option of the source. -/
def WithPollInterval (t : Nat) : ClientOption := fun cfg => { cfg with PollInterval := t }

/-- The API client (hnapi.go). -/
structure Client where
  Config : Config

/-- NewClient applies the options, in order, to the default configuration. -/
def NewClient (opts : List ClientOption) : Client :=
  { Config := opts.foldl (fun cfg opt => opt cfg) DefaultConfig }

/-- The state of a Go context as observed at one instant: whether it has
been canceled and its deadline, if any (nanoseconds of allowed elapsed
time for the request executed under it). -/
structure CtxState where
  canceled : Bool
  deadline : Option Nat
deriving DecidableEq, Repr

/-- One HTTP round-trip as the network would execute it: resulting status
code, body, and the wall-clock time the transaction takes. -/
structure HttpTransaction where
  status : Nat
  body : String
  elapsed : Nat
deriving DecidableEq, Repr

/-- The network environment: what a GET of each URL would return. -/
def HttpWorld : Type := String → HttpTransaction

/-- Model of http.Client.Do: fails if the context is canceled, if the
client's own Timeout (when non-zero) elapses before the transaction
completes, or if the context deadline elapses first; otherwise yields the
transaction.  Note that the library's Config.RequestTimeout plays no part
here: Do only sees the http.Client and the request context. -/
def HttpClient.Do (cl : HttpClient) (world : HttpWorld) (ctx : CtxState)
    (url : String) : Except GoErr HttpTransaction :=
  let t := world url
  if ctx.canceled then Except.error GoErr.contextCanceled
  else if cl.Timeout ≠ 0 ∧ cl.Timeout < t.elapsed then
    Except.error (GoErr.transport "Client.Timeout exceeded while awaiting headers")
  else
    match ctx.deadline with
    | some d =>
        if d < t.elapsed then Except.error (GoErr.transport "context deadline exceeded")
        else Except.ok t
    | none => Except.ok t

/-- makeRequest of api.go: build the full URL from BaseURL, execute the
request with the configured HTTP client under the caller's context, check
the status code, reject empty or null bodies, and decode the JSON body
(abstracted as the dec parameter, playing json.Unmarshal into the target
shape). -/
def Client.makeRequest {α : Type} (c : Client) (world : HttpWorld) (ctx : CtxState)
    (endpoint : String) (dec : String → Option α) : Except GoErr α :=
  let fullURL := c.Config.BaseURL ++ endpoint
  match c.Config.HTTPClient.Do world ctx fullURL with
  | Except.error e => Except.error (GoErr.wrap "failed to execute request" e)
  | Except.ok resp =>
    if resp.status ≠ 200 then Except.error (GoErr.unexpectedStatus resp.status)
    else if resp.body.length = 0 ∨ resp.body = "null" then Except.error GoErr.nullResponse
    else
      match dec resp.body with
      | none => Except.error GoErr.unmarshal
      | some v => Except.ok v

/-- The per-item result record sent over the result channel by each
GetItemsBatch worker goroutine (itemResult of the source). -/
structure ItemResult where
  Item : Option Item
  ID : Int
  Error : Option GoErr
deriving DecidableEq, Repr

/-- One worker goroutine's body after acquiring the semaphore: call
GetItem (abstracted as the fetch oracle, indexed by the occurrence
position so two occurrences of one id may fare differently on the
network) and build the itemResult that is sent on the channel. -/
def runItem (fetch : Nat → Int → Except GoErr Item) (i : Nat) (id : Int) : ItemResult :=
  match fetch i id with
  | Except.ok it => { Item := some it, ID := id, Error := none }
  | Except.error e => { Item := none, ID := id, Error := some e }

/-- The result-channel content of one GetItemsBatch call: the workers'
results listed in completion order, where the order parameter lists the
occurrence indices in the order their goroutines completed. -/
def completionResults (fetch : Nat → Int → Except GoErr Item) (ids : List Int)
    (order : List Nat) : List ItemResult :=
  order.map (fun i => runItem fetch i (ids.getD i 0))

/-- One iteration of the collection loop of GetItemsBatch: a failed
result appends a wrapped error, a successful one with a non-nil item
appends the item. -/
def collectStep (acc : List Item × List GoErr) (r : ItemResult) : List Item × List GoErr :=
  match r.Error with
  | some e => (acc.1, acc.2 ++ [GoErr.wrap ("failed to get item " ++ toString r.ID) e])
  | none =>
    match r.Item with
    | some it => (acc.1 ++ [it], acc.2)
    | none => acc

/-- The collection loop of GetItemsBatch, folding the channel contents in
arrival order into the items and errors slices. -/
def collectResults (rs : List ItemResult) : List Item × List GoErr :=
  rs.foldl collectStep ([], [])

/-- The tail of GetItemsBatch: all fetches failed yields nil plus a
wrapped first error, a partial failure yields the items plus the first
error, total success yields the items and no error.  The first component
none models the nil slice Go returns in the failed-outright case. -/
def batchReturn (rs : List ItemResult) : Option (List Item) × Option GoErr :=
  let items := (collectResults rs).1
  let errs := (collectResults rs).2
  if items.length = 0 ∧ 0 < errs.length then
    (none, some (GoErr.wrap "failed to get any items" (errs.headD GoErr.nullResponse)))
  else if 0 < errs.length then (some items, some (errs.headD GoErr.nullResponse))
  else (some items, none)

/-- GetItemsBatch of the source, as the function of the fetch outcomes
and of the completion order (which real executions choose
nondeterministically; theorems quantify over all permutations of the
occurrence indices).  An empty id list returns an empty non-nil slice and
no error before any machinery runs. -/
def Client.GetItemsBatch (c : Client) (fetch : Nat → Int → Except GoErr Item)
    (order : List Nat) (ids : List Int) : Option (List Item) × Option GoErr :=
  if ids.length = 0 then (some [], none)
  else batchReturn (completionResults fetch ids order)

/-- The items of the successful results, in the order given. -/
def successItems (rs : List ItemResult) : List Item :=
  rs.filterMap (fun r =>
    match r.Error, r.Item with
    | none, some it => some it
    | _, _ => none)

/-- The collected errors of the failed results (each wrapped with its item
id, as the collection loop does), in the order given. -/
def failureErrs (rs : List ItemResult) : List GoErr :=
  rs.filterMap (fun r =>
    match r.Error with
    | some e => some (GoErr.wrap ("failed to get item " ++ toString r.ID) e)
    | none => none)

/-- The raw fetch errors of the failed results, in the order given. -/
def rawFailures (rs : List ItemResult) : List GoErr :=
  rs.filterMap (fun r => r.Error)

/-- Status of one worker goroutine of GetItemsBatch: spawned and blocked
on the semaphore send, fetching while holding a semaphore token, or done
(its result sent and the token released). -/
inductive WStatus where
  | waitingSem
  | inFlight
  | done
deriving DecidableEq, Repr

/-- State of one GetItemsBatch call: the status of each worker (one per
occurrence in the input id list), the number of semaphore tokens held,
and the occurrence indices whose results were sent, in completion
order. -/
structure BatchState where
  workers : List WStatus
  semCount : Nat
  results : List Nat
deriving DecidableEq, Repr

/-- Initial state: every worker spawned and waiting on the semaphore, no
token held, nothing on the result channel. -/
def initBatch (K : Nat) : BatchState :=
  { workers := List.replicate K WStatus.waitingSem, semCount := 0, results := [] }

/-- Interleaving semantics of GetItemsBatch with semaphore capacity cap:
a waiting worker may acquire a token when the semaphore channel has room,
and a fetching worker may complete, sending its result and releasing its
token. -/
inductive BatchStep (cap : Nat) : BatchState → BatchState → Prop where
  | acquire (s : BatchState) (i : Nat)
      (hw : s.workers[i]? = some WStatus.waitingSem)
      (hsem : s.semCount < cap) :
      BatchStep cap s { workers := s.workers.set i WStatus.inFlight,
                        semCount := s.semCount + 1,
                        results := s.results }
  | complete (s : BatchState) (i : Nat)
      (hw : s.workers[i]? = some WStatus.inFlight) :
      BatchStep cap s { workers := s.workers.set i WStatus.done,
                        semCount := s.semCount - 1,
                        results := s.results ++ [i] }

/-- States reachable by a GetItemsBatch call over K occurrences with
semaphore capacity cap. -/
inductive BatchReach (cap K : Nat) : BatchState → Prop where
  | init : BatchReach cap K (initBatch K)
  | step {s t : BatchState} : BatchReach cap K s → BatchStep cap s t → BatchReach cap K t

/-- Number of workers currently in a given status. -/
def countStatus : List WStatus → WStatus → Nat
  | [], _ => 0
  | w :: ws, st => (if w = st then 1 else 0) + countStatus ws st

/-- Every worker of the batch call has terminated. -/
def BatchState.allDone (s : BatchState) : Prop :=
  ∀ w ∈ s.workers, w = WStatus.done

/-- The inductive invariant of the batch machine: one worker per
occurrence, the semaphore token count equals the number of fetching
workers and respects the channel capacity, and the result channel holds
exactly the indices of the terminated workers, each once. -/
def BatchInv (cap K : Nat) (s : BatchState) : Prop :=
  s.workers.length = K ∧
  s.semCount = countStatus s.workers WStatus.inFlight ∧
  s.semCount ≤ cap ∧
  s.results.Nodup ∧
  (∀ i : Nat, i ∈ s.results ↔ s.workers[i]? = some WStatus.done)

/-- The state of a sequential execution of the batch machine after the
first j occurrences have been fetched to completion, one at a time. -/
def doneUpTo (K j : Nat) : BatchState :=
  { workers := List.replicate j WStatus.done ++ List.replicate (K - j) WStatus.waitingSem,
    semCount := 0,
    results := List.range j }

/-- Outcome of the delivery select in pollUpdates: either the channel
send is chosen, or the ctx.Done branch is chosen (possible only when the
cancellation signal has fired by the time the select runs). -/
inductive SelectChoice where
  | send
  | ctxDone
deriving DecidableEq, Repr

/-- The guard of the delivery in pollUpdates: whether either sequence of
the decoded Updates is non-empty. -/
def Updates.hasUpdates (u : Updates) : Bool :=
  decide (0 < u.Items.length) || decide (0 < u.Profiles.length)

/-- The delivery logic of pollUpdates given the fetch outcome: a failed
fetch is wrapped and returned (to be logged by the loop), an empty
Updates is dropped silently, and a non-empty one is sent unless the
select observes cancellation first, in which case ctx.Err() is
returned.  The first component is what reaches the stream channel. -/
def pollDeliver (fr : Except GoErr Updates) (choice : SelectChoice) :
    Option Updates × Option GoErr :=
  match fr with
  | Except.error e => (none, some (GoErr.wrap "failed to get updates" e))
  | Except.ok u =>
    if u.hasUpdates then
      match choice with
      | SelectChoice.send => (some u, none)
      | SelectChoice.ctxDone => (none, some GoErr.contextCanceled)
    else (none, none)

/-- pollUpdates of updates.go: fetch and decode updates.json through
makeRequest, then run the delivery logic.  The choice parameter resolves
the select between the channel send and ctx.Done; choosing ctxDone is
only meaningful when the context has been canceled by delivery time. -/
def Client.pollUpdates (c : Client) (world : HttpWorld) (ctx : CtxState)
    (dec : String → Option Updates) (choice : SelectChoice) :
    Option Updates × Option GoErr :=
  pollDeliver (c.makeRequest world ctx "updates.json" dec) choice

/-- Observable actions of the polling goroutine: performing one fetch of
updates.json, placing one Updates value on the stream channel, and
closing the channel. -/
inductive StreamAct where
  | fetched
  | delivered (u : Updates)
  | closedChan
deriving DecidableEq, Repr

deriving instance DecidableEq for Except

/-- One resolution of the select at the top of the polling loop: either
the ticker fired (with the outcome the ensuing poll will see), or
ctx.Done was observed (only possible once the cancellation signal has
fired). -/
inductive LoopEvent where
  | tick (fr : Except GoErr Updates) (choice : SelectChoice)
  | ctxDone
deriving DecidableEq, Repr

/-- The actions of one poll: a fetch always happens, followed by a
delivery exactly when the delivery logic forwards the value.  A failed
poll contributes no action beyond its fetch: the error is logged and
swallowed. -/
def pollActs (fr : Except GoErr Updates) (choice : SelectChoice) : List StreamAct :=
  StreamAct.fetched ::
    (match (pollDeliver fr choice).1 with
     | some u => [StreamAct.delivered u]
     | none => [])

/-- The select loop of the polling goroutine: each ticker event runs one
poll and the loop continues (in particular after a failed poll), and the
first ctx.Done event closes the channel (the deferred close) and stops
the goroutine for good. -/
def loopRun : List LoopEvent → List StreamAct
  | [] => []
  | LoopEvent.ctxDone :: _ => [StreamAct.closedChan]
  | LoopEvent.tick fr choice :: rest => pollActs fr choice ++ loopRun rest

/-- The whole behaviour of the goroutine started by StartUpdates: one
poll runs immediately, before the loop waits on any ticker event, and
then the select loop runs. -/
def startUpdatesRun (fr0 : Except GoErr Updates) (choice0 : SelectChoice)
    (evs : List LoopEvent) : List StreamAct :=
  pollActs fr0 choice0 ++ loopRun evs

/-- The stream channel handed to the caller, carrying its buffer size. -/
structure UpdatesChan where
  buffer : Nat
deriving DecidableEq, Repr

/-- StartUpdates of updates.go: allocate the buffered channel, start the
polling goroutine (whose behaviour is startUpdatesRun over the events it
will observe), and return the channel with a nil error unconditionally. -/
def Client.StartUpdates (c : Client) (ctx : CtxState) (fr0 : Except GoErr Updates)
    (choice0 : SelectChoice) (evs : List LoopEvent) :
    (Option UpdatesChan × Option GoErr) × List StreamAct :=
  ((some { buffer := 1 }, none), startUpdatesRun fr0 choice0 evs)

/-- Number of fetch actions in a behaviour. -/
def countFetched : List StreamAct → Nat
  | [] => 0
  | StreamAct.fetched :: rest => countFetched rest + 1
  | _ :: rest => countFetched rest

/-- Number of ticker events the loop consumes before the first ctx.Done
event (all of them, if cancellation never fires). -/
def countTicksUntilDone : List LoopEvent → Nat
  | [] => 0
  | LoopEvent.ctxDone :: _ => 0
  | LoopEvent.tick _ _ :: rest => countTicksUntilDone rest + 1

/-- The actions the goroutine performs strictly after closing the
channel: everything past the first closedChan action. -/
def actsAfterClose (acts : List StreamAct) : List StreamAct :=
  (acts.dropWhile (fun a => a != StreamAct.closedChan)).drop 1

/-- A concrete item used to instantiate theorems on closed inputs. -/
def sampleItem : Item :=
  { ID := 8863, Deleted := false, «Type» := "story", By := "u", Time := 0, Text := "",
    Dead := false, Parent := 0, Poll := 0, Kids := [], URL := "", Score := 0,
    Title := "t", Parts := [], Descendants := 0 }

/-- A concrete fetch oracle: the occurrence at index 0 succeeds, every
other occurrence fails with a transport error. -/
def wfetch : Nat → Int → Except GoErr Item := fun i _ =>
  if i = 0 then Except.ok sampleItem else Except.error (GoErr.transport "boom")

/-- A concrete fetch oracle on which every fetch fails. -/
def wfetchFail : Nat → Int → Except GoErr Item :=
  fun _ _ => Except.error (GoErr.transport "boom")

/-- A concrete network world: every URL answers 200 with a non-null body
instantly. -/
def wWorld : HttpWorld := fun _ => { status := 200, body := "x", elapsed := 0 }

/-- A concrete network world on which every transaction takes 20 seconds,
twice the default RequestTimeout, and still answers 200 with a valid
body. -/
def slowWorld : HttpWorld := fun _ => { status := 200, body := "42", elapsed := 20 * second }

/-- A live context: not canceled, no deadline. -/
def freshCtx : CtxState := { canceled := false, deadline := none }

/-- A concrete decoder yielding one changed item and no changed profiles. -/
def wDec : String → Option Updates := fun _ => some { Items := [456], Profiles := [] }

/-- The Updates value wDec decodes. -/
def u456 : Updates := { Items := [456], Profiles := [] }

/-! Helper lemmas on the batch collector. -/

theorem successItems_cons (r : ItemResult) (rest : List ItemResult) :
    successItems (r :: rest) =
      (match r.Error, r.Item with
       | none, some it => some it
       | _, _ => none).toList ++ successItems rest := by
  rw [successItems, List.filterMap_cons]
  cases r.Error <;> cases r.Item <;> simp [successItems]

theorem failureErrs_cons (r : ItemResult) (rest : List ItemResult) :
    failureErrs (r :: rest) =
      (match r.Error with
       | some e => [GoErr.wrap ("failed to get item " ++ toString r.ID) e]
       | none => []) ++ failureErrs rest := by
  rw [failureErrs, List.filterMap_cons]
  cases r.Error <;> simp [failureErrs]

theorem collect_foldl (rs : List ItemResult) :
    ∀ its errs, rs.foldl collectStep (its, errs) =
      (its ++ successItems rs, errs ++ failureErrs rs) := by
  induction rs with
  | nil => intro its errs; simp [successItems, failureErrs]
  | cons r rest ih =>
    intro its errs
    rw [List.foldl_cons, successItems_cons, failureErrs_cons]
    cases hE : r.Error with
    | some e =>
      simp only [collectStep, hE]
      rw [ih]
      simp
    | none =>
      cases hI : r.Item with
      | some it =>
        simp only [collectStep, hE, hI]
        rw [ih]
        simp
      | none =>
        simp only [collectStep, hE, hI]
        rw [ih]
        simp

theorem collectResults_eq (rs : List ItemResult) :
    collectResults rs = (successItems rs, failureErrs rs) := by
  simpa using collect_foldl rs [] []

theorem collectResults_fst (rs : List ItemResult) :
    (collectResults rs).1 = successItems rs := by
  rw [collectResults_eq]

theorem collectResults_snd (rs : List ItemResult) :
    (collectResults rs).2 = failureErrs rs := by
  rw [collectResults_eq]

theorem errorsIs_self (e : GoErr) : errorsIs e e = true := by
  cases e <;> simp [errorsIs]

theorem errorsIs_wrap (m : String) (e t : GoErr) (h : errorsIs e t = true) :
    errorsIs (GoErr.wrap m e) t = true := by
  rw [errorsIs]
  split
  · rfl
  · exact h

theorem failureErrs_head (rs : List ItemResult) (hf : failureErrs rs ≠ []) :
    ∃ (id : Int) (e : GoErr), (failureErrs rs).headD GoErr.nullResponse =
        GoErr.wrap ("failed to get item " ++ toString id) e ∧
      (rawFailures rs).headD GoErr.nullResponse = e := by
  induction rs with
  | nil => simp [failureErrs] at hf
  | cons r rest ih =>
    cases hE : r.Error with
    | some e =>
      exact ⟨r.ID, e, by simp [failureErrs, hE], by simp [rawFailures, hE]⟩
    | none =>
      have h1 : failureErrs (r :: rest) = failureErrs rest := by simp [failureErrs, hE]
      have h2 : rawFailures (r :: rest) = rawFailures rest := by simp [rawFailures, hE]
      rw [h1] at hf ⊢
      rw [h2]
      exact ih hf

theorem successItems_nil_iff (fetch : Nat → Int → Except GoErr Item) (ids : List Int)
    (order : List Nat) :
    successItems (completionResults fetch ids order) = [] ↔
      ∀ r ∈ completionResults fetch ids order, r.Error.isSome := by
  rw [successItems, List.filterMap_eq_nil_iff]
  constructor
  · intro h r hr
    have hmem := h r hr
    obtain ⟨i, _hi, hreq⟩ := List.mem_map.mp hr
    rw [← hreq] at hmem ⊢
    revert hmem
    cases hF : fetch i (ids.getD i 0) <;> simp only [runItem, hF] <;> intro hmem
    · rfl
    · exact absurd hmem (by simp)
  · intro h r hr
    have hmem := h r hr
    cases hE : r.Error with
    | none => rw [hE] at hmem; simp at hmem
    | some e => simp [hE]

theorem failureErrs_ne_nil (rs : List ItemResult) (hne : rs ≠ [])
    (hall : ∀ r ∈ rs, r.Error.isSome) : failureErrs rs ≠ [] := by
  cases rs with
  | nil => exact absurd rfl hne
  | cons r rest =>
    have h := hall r (List.mem_cons_self r rest)
    cases hE : r.Error with
    | none => rw [hE] at h; simp at h
    | some e => simp [failureErrs, hE]

theorem completionResults_ne_nil (fetch : Nat → Int → Except GoErr Item) (ids : List Int)
    (order : List Nat) (hperm : order.Perm (List.range ids.length)) (hne : ids ≠ []) :
    completionResults fetch ids order ≠ [] := by
  have hlen : order.length = ids.length := by
    simpa using hperm.length_eq
  intro h
  have : order = [] := by
    simpa [completionResults] using h
  rw [this] at hlen
  cases ids with
  | nil => exact hne rfl
  | cons a l => simp at hlen

/-- C1: on a non-empty id sequence where at least one fetch fails and at
least one succeeds, GetItemsBatch returns exactly the successfully
fetched items plus a non-absent error, and that error is (in the
errors.Is sense, through the collector's wrap) the first-encountered
failure in completion order; the successful subset is still returned
alongside the error. -/
theorem getItemsBatch_partial_failure (c : Client) (fetch : Nat → Int → Except GoErr Item)
    (ids : List Int) (order : List Nat)
    (hperm : order.Perm (List.range ids.length)) (hne : ids ≠ [])
    (hs : successItems (completionResults fetch ids order) ≠ [])
    (hf : failureErrs (completionResults fetch ids order) ≠ []) :
    c.GetItemsBatch fetch order ids =
      (some (successItems (completionResults fetch ids order)),
       some ((failureErrs (completionResults fetch ids order)).headD GoErr.nullResponse)) ∧
    errorsIs ((failureErrs (completionResults fetch ids order)).headD GoErr.nullResponse)
      ((rawFailures (completionResults fetch ids order)).headD GoErr.nullResponse) = true := by
  constructor
  · have hlen : ¬ ids.length = 0 := by
      simpa [List.length_eq_zero] using hne
    have h1 : ¬ ((successItems (completionResults fetch ids order)).length = 0 ∧
        0 < (failureErrs (completionResults fetch ids order)).length) := by
      intro hcon
      exact hs (List.length_eq_zero.mp hcon.1)
    have h2 : 0 < (failureErrs (completionResults fetch ids order)).length :=
      List.length_pos.mpr hf
    simp only [Client.GetItemsBatch, batchReturn, collectResults_fst, collectResults_snd]
    rw [if_neg hlen, if_neg h1, if_pos h2]
  · obtain ⟨id, e, h1, h2⟩ := failureErrs_head _ hf
    rw [h1, h2]
    exact errorsIs_wrap _ e e (errorsIs_self e)

/-- C1 witness: a two-id batch whose second-spawned fetch fails and
completes first; output is the one successful item plus the wrapped
transport error of the first-completed failure. -/
theorem getItemsBatch_partial_failure_witness :
    Client.GetItemsBatch { Config := DefaultConfig } wfetch [1, 0] [1, 2] =
      (some (successItems (completionResults wfetch [1, 2] [1, 0])),
       some ((failureErrs (completionResults wfetch [1, 2] [1, 0])).headD GoErr.nullResponse)) ∧
    errorsIs ((failureErrs (completionResults wfetch [1, 2] [1, 0])).headD GoErr.nullResponse)
      ((rawFailures (completionResults wfetch [1, 2] [1, 0])).headD GoErr.nullResponse) = true :=
  getItemsBatch_partial_failure { Config := DefaultConfig } wfetch [1, 2] [1, 0]
    (by decide) (by decide) (by decide) (by decide)

/-- C3: on a non-empty id sequence where every fetch fails, GetItemsBatch
returns a nil slice and a non-absent error wrapping the first failure in
completion order, and this is the only outcome producing a nil result
set. -/
theorem getItemsBatch_all_failed (c : Client) (fetch : Nat → Int → Except GoErr Item)
    (ids : List Int) (order : List Nat)
    (hperm : order.Perm (List.range ids.length)) (hne : ids ≠ []) :
    ((∀ r ∈ completionResults fetch ids order, r.Error.isSome) →
      c.GetItemsBatch fetch order ids =
        (none, some (GoErr.wrap "failed to get any items"
          ((failureErrs (completionResults fetch ids order)).headD GoErr.nullResponse))) ∧
      errorsIs (GoErr.wrap "failed to get any items"
          ((failureErrs (completionResults fetch ids order)).headD GoErr.nullResponse))
        ((rawFailures (completionResults fetch ids order)).headD GoErr.nullResponse) = true) ∧
    ((c.GetItemsBatch fetch order ids).1 = none ↔
      ∀ r ∈ completionResults fetch ids order, r.Error.isSome) := by
  have hlen : ¬ ids.length = 0 := by
    simpa [List.length_eq_zero] using hne
  have hrs : completionResults fetch ids order ≠ [] :=
    completionResults_ne_nil fetch ids order hperm hne
  constructor
  · intro hall
    have hfe : failureErrs (completionResults fetch ids order) ≠ [] :=
      failureErrs_ne_nil _ hrs hall
    have hsn : successItems (completionResults fetch ids order) = [] :=
      (successItems_nil_iff fetch ids order).mpr hall
    constructor
    · simp only [Client.GetItemsBatch, batchReturn, collectResults_fst, collectResults_snd]
      rw [if_neg hlen, if_pos ⟨by rw [hsn]; rfl, List.length_pos.mpr hfe⟩]
    · obtain ⟨id, e, h1, h2⟩ := failureErrs_head _ hfe
      rw [h1, h2]
      exact errorsIs_wrap _ _ e (errorsIs_wrap _ e e (errorsIs_self e))
  · constructor
    · intro h
      simp only [Client.GetItemsBatch, batchReturn, collectResults_fst,
        collectResults_snd] at h
      rw [if_neg hlen] at h
      by_cases hc : (successItems (completionResults fetch ids order)).length = 0 ∧
          0 < (failureErrs (completionResults fetch ids order)).length
      · exact (successItems_nil_iff fetch ids order).mp (List.length_eq_zero.mp hc.1)
      · rw [if_neg hc] at h
        by_cases hc2 : 0 < (failureErrs (completionResults fetch ids order)).length
        · rw [if_pos hc2] at h
          simp at h
        · rw [if_neg hc2] at h
          simp at h
    · intro hall
      have hfe : failureErrs (completionResults fetch ids order) ≠ [] :=
        failureErrs_ne_nil _ hrs hall
      have hsn : successItems (completionResults fetch ids order) = [] :=
        (successItems_nil_iff fetch ids order).mpr hall
      simp only [Client.GetItemsBatch, batchReturn, collectResults_fst, collectResults_snd]
      rw [if_neg hlen, if_pos ⟨by rw [hsn]; rfl, List.length_pos.mpr hfe⟩]

/-- C3 witness: a two-id batch where both fetches fail; the call returns
a nil slice and the wrapped first failure, and nil is returned exactly
because every fetch failed. -/
theorem getItemsBatch_all_failed_witness :
    ((∀ r ∈ completionResults wfetchFail [1, 2] [0, 1], r.Error.isSome) →
      Client.GetItemsBatch { Config := DefaultConfig } wfetchFail [0, 1] [1, 2] =
        (none, some (GoErr.wrap "failed to get any items"
          ((failureErrs (completionResults wfetchFail [1, 2] [0, 1])).headD GoErr.nullResponse))) ∧
      errorsIs (GoErr.wrap "failed to get any items"
          ((failureErrs (completionResults wfetchFail [1, 2] [0, 1])).headD GoErr.nullResponse))
        ((rawFailures (completionResults wfetchFail [1, 2] [0, 1])).headD GoErr.nullResponse) = true) ∧
    ((Client.GetItemsBatch { Config := DefaultConfig } wfetchFail [0, 1] [1, 2]).1 = none ↔
      ∀ r ∈ completionResults wfetchFail [1, 2] [0, 1], r.Error.isSome) :=
  getItemsBatch_all_failed { Config := DefaultConfig } wfetchFail [1, 2] [0, 1]
    (by decide) (by decide)

/-- C4: GetItemsBatch on an empty id sequence returns an empty non-nil
result slice and no error for every client, fetch oracle and completion
order, and the batch machine over zero occurrences can never leave its
initial state, so no fetch is ever started. -/
theorem getItemsBatch_empty :
    (∀ (c : Client) (fetch : Nat → Int → Except GoErr Item) (order : List Nat),
      c.GetItemsBatch fetch order [] = (some [], none)) ∧
    (∀ (cap : Nat) (s : BatchState), BatchReach cap 0 s → s = initBatch 0 ∧ s.results = []) := by
  constructor
  · intro c fetch order; rfl
  · intro cap s h
    induction h with
    | init => exact ⟨rfl, rfl⟩
    | step hprev hstep ih =>
      cases hstep with
      | acquire i hw hsem =>
        rw [ih.1] at hw
        simp [initBatch] at hw
      | complete i hw =>
        rw [ih.1] at hw
        simp [initBatch] at hw

/-- C4 witness: the empty batch at a concrete client and the machine at
its initial state. -/
theorem getItemsBatch_empty_witness :
    Client.GetItemsBatch { Config := DefaultConfig } wfetch [] [] = (some [], none) ∧
    (initBatch 0).results = [] :=
  ⟨getItemsBatch_empty.1 { Config := DefaultConfig } wfetch [],
   (getItemsBatch_empty.2 10 (initBatch 0) BatchReach.init).2⟩

/-! Helper lemmas on the batch machine. -/

theorem countStatus_replicate (n : Nat) (a st : WStatus) :
    countStatus (List.replicate n a) st = if a = st then n else 0 := by
  induction n with
  | zero => simp [countStatus]
  | succ m ih =>
    rw [List.replicate_succ, countStatus, ih]
    split <;> omega

theorem countStatus_set (ws : List WStatus) (i : Nat) (a b st : WStatus)
    (h : ws[i]? = some a) :
    countStatus (ws.set i b) st + (if a = st then 1 else 0) =
      countStatus ws st + (if b = st then 1 else 0) := by
  induction ws generalizing i with
  | nil => simp at h
  | cons w ws ih =>
    cases i with
    | zero =>
      have hw : w = a := by simpa using h
      subst hw
      simp only [List.set]
      rw [countStatus, countStatus]
      split_ifs <;> omega
    | succ n =>
      have h' : ws[n]? = some a := by simpa using h
      simp only [List.set]
      rw [countStatus, countStatus]
      have hrec := ih n h'
      split_ifs at hrec ⊢ <;> omega

theorem batchInv_init (cap K : Nat) : BatchInv cap K (initBatch K) := by
  refine ⟨by simp [initBatch], ?_, Nat.zero_le cap, by simp [initBatch], ?_⟩
  · rw [initBatch, countStatus_replicate]
    simp
  · intro i
    simp only [initBatch, List.getElem?_replicate]
    constructor
    · intro h
      simp at h
    · intro h
      split at h <;> simp at h

theorem batchInv_step {cap K : Nat} {s t : BatchState} (hinv : BatchInv cap K s)
    (hst : BatchStep cap s t) : BatchInv cap K t := by
  obtain ⟨hlen, hsem, hcap, hnd, hmem⟩ := hinv
  cases hst with
  | acquire i hw hsem2 =>
    have hlt : i < s.workers.length := (List.getElem?_eq_some.mp hw).1
    have hcs := countStatus_set s.workers i WStatus.waitingSem WStatus.inFlight
      WStatus.inFlight hw
    have hsemEq : s.semCount + 1 =
        countStatus (s.workers.set i WStatus.inFlight) WStatus.inFlight := by
      simp at hcs
      omega
    refine ⟨by simpa using hlen, hsemEq, Nat.succ_le_of_lt hsem2, hnd, ?_⟩
    intro j
    by_cases hj : j = i
    · subst hj
      rw [List.getElem?_set_self hlt]
      constructor
      · intro hin
        have := (hmem j).mp hin
        rw [this] at hw
        cases hw
      · intro hcon
        cases hcon
    · rw [List.getElem?_set_ne (fun hc => hj hc.symm)]
      exact hmem j
  | complete i hw =>
    have hlt : i < s.workers.length := (List.getElem?_eq_some.mp hw).1
    have hcs := countStatus_set s.workers i WStatus.inFlight WStatus.done
      WStatus.inFlight hw
    have hnotin : i ∉ s.results := by
      intro hin
      have := (hmem i).mp hin
      rw [this] at hw
      cases hw
    have hsemEq : s.semCount - 1 =
        countStatus (s.workers.set i WStatus.done) WStatus.inFlight := by
      simp at hcs
      omega
    have hcap2 : s.semCount - 1 ≤ cap := by omega
    refine ⟨by simpa using hlen, hsemEq, hcap2, ?_, ?_⟩
    · rw [List.nodup_append_comm]
      exact List.nodup_cons.mpr ⟨hnotin, hnd⟩
    · intro j
      by_cases hj : j = i
      · subst hj
        rw [List.getElem?_set_self hlt]
        simp
      · rw [List.getElem?_set_ne (fun hc => hj hc.symm)]
        rw [List.mem_append]
        simp only [List.mem_singleton, hj, or_false]
        exact hmem j

theorem batchInv_reach {cap K : Nat} {s : BatchState} (h : BatchReach cap K s) :
    BatchInv cap K s := by
  induction h with
  | init => exact batchInv_init cap K
  | step hprev hstep ih => exact batchInv_step ih hstep

theorem batch_results_perm {cap K : Nat} {s : BatchState} (hr : BatchReach cap K s)
    (hd : s.allDone) : s.results.Perm (List.range K) := by
  obtain ⟨hlen, _, _, hnd, hmem⟩ := batchInv_reach hr
  apply List.perm_of_nodup_nodup_toFinset_eq hnd (List.nodup_range K)
  ext a
  rw [List.mem_toFinset, List.mem_toFinset, List.mem_range, hmem a]
  constructor
  · intro h
    have := (List.getElem?_eq_some.mp h).1
    omega
  · intro haK
    have hlt : a < s.workers.length := by omega
    rw [List.getElem?_eq_getElem hlt]
    have := hd (s.workers[a]) (List.getElem_mem hlt)
    rw [this]

theorem reach_doneUpTo (cap K : Nat) (hcap : 1 ≤ cap) :
    ∀ j, j ≤ K → BatchReach cap K (doneUpTo K j) := by
  intro j
  induction j with
  | zero =>
    intro _
    have h0 : doneUpTo K 0 = initBatch K := by
      simp [doneUpTo, initBatch]
    rw [h0]
    exact BatchReach.init
  | succ n ih =>
    intro hle
    have hn : n ≤ K := Nat.le_of_succ_le hle
    have hKn : K - n = (K - (n + 1)) + 1 := by omega
    have hr := ih hn
    have hw1 : (doneUpTo K n).workers[n]? = some WStatus.waitingSem := by
      rw [doneUpTo]
      rw [List.getElem?_append_right (by simp)]
      rw [hKn, List.replicate_succ]
      simp
    have hreach1 := BatchReach.step hr (BatchStep.acquire (doneUpTo K n) n hw1 hcap)
    have hlenw : n < (doneUpTo K n).workers.length := by
      simp [doneUpTo]
      omega
    have hw2 : ((doneUpTo K n).workers.set n WStatus.inFlight)[n]? =
        some WStatus.inFlight := List.getElem?_set_self hlenw
    have hreach2 := BatchReach.step hreach1 (BatchStep.complete _ n hw2)
    have hworkers : ((List.replicate n WStatus.done ++
          List.replicate (K - n) WStatus.waitingSem).set n WStatus.inFlight).set n
            WStatus.done =
        List.replicate (n + 1) WStatus.done ++
          List.replicate (K - (n + 1)) WStatus.waitingSem := by
      rw [List.set_set]
      rw [List.set_append_right n WStatus.done (by simp)]
      rw [List.length_replicate, Nat.sub_self]
      rw [hKn, List.replicate_succ, List.set_cons_zero]
      simp [List.replicate_succ', List.append_assoc]
    have heq : doneUpTo K (n + 1) =
        ({ workers := ((doneUpTo K n).workers.set n WStatus.inFlight).set n WStatus.done,
           semCount := (doneUpTo K n).semCount + 1 - 1,
           results := (doneUpTo K n).results ++ [n] } : BatchState) := by
      simp only [doneUpTo]
      rw [hworkers, List.range_succ]
    rw [heq]
    exact hreach2

theorem batch_progress (cap K : Nat) (hcap : 1 ≤ cap) :
    ∃ s, BatchReach cap K s ∧ s.allDone ∧ s.results = List.range K := by
  refine ⟨doneUpTo K K, reach_doneUpTo cap K hcap K le_rfl, ?_, by simp [doneUpTo]⟩
  intro w hwmem
  rw [doneUpTo] at hwmem
  simp only [Nat.sub_self, List.replicate_zero, List.append_nil] at hwmem
  exact (List.eq_of_mem_replicate hwmem)

/-- C2: a GetItemsBatch call over K occurrences attempts exactly one
fetch per occurrence: in every completed execution of the batch machine
the completed-fetch log is a permutation of the K occurrence indices (K
fetches, none skipped, none duplicated), for every ceiling and every mix
of fetch outcomes, and for every ceiling of at least one a completed
execution exists. -/
theorem getItemsBatch_attempts_each_occurrence_once (cap K : Nat) (hcap : 1 ≤ cap) :
    (∀ s : BatchState, BatchReach cap K s → s.allDone →
      s.results.Perm (List.range K) ∧ s.results.length = K ∧ s.results.Nodup) ∧
    (∃ s : BatchState, BatchReach cap K s ∧ s.allDone ∧ s.results = List.range K) := by
  constructor
  · intro s hr hd
    have hp := batch_results_perm hr hd
    exact ⟨hp, by simpa using hp.length_eq, (batchInv_reach hr).2.2.2.1⟩
  · exact batch_progress cap K hcap

/-- C2 witness: with ceiling 2 and three occurrences, a completed
execution exists and its fetch log is exactly the three indices. -/
theorem getItemsBatch_attempts_each_occurrence_once_witness :
    ∃ s : BatchState, BatchReach 2 3 s ∧ s.allDone ∧ s.results = List.range 3 :=
  (getItemsBatch_attempts_each_occurrence_once 2 3 (by decide)).2

/-- C9: during one GetItemsBatch call with configured ceiling at least 1,
the number of concurrently in-flight fetches never exceeds the ceiling in
any reachable state of the batch machine, and the default ceiling is
10. -/
theorem getItemsBatch_bounded_concurrency (c : Client) (K : Nat) (s : BatchState)
    (hcap : 1 ≤ c.Config.Concurrency)
    (h : BatchReach c.Config.Concurrency K s) :
    countStatus s.workers WStatus.inFlight ≤ c.Config.Concurrency ∧
    DefaultConfig.Concurrency = 10 := by
  obtain ⟨_, hsem, hcap2, _, _⟩ := batchInv_reach h
  exact ⟨hsem ▸ hcap2, rfl⟩

/-- C9 witness: the default client (ceiling 10) at the initial state of a
three-occurrence batch. -/
theorem getItemsBatch_bounded_concurrency_witness :
    countStatus (initBatch 3).workers WStatus.inFlight ≤ (NewClient []).Config.Concurrency ∧
    DefaultConfig.Concurrency = 10 :=
  getItemsBatch_bounded_concurrency (NewClient []) 3 (initBatch 3) (by decide)
    BatchReach.init

/-! Helper lemmas on the update streamer. -/

theorem closed_not_mem_pollActs (fr : Except GoErr Updates) (ch : SelectChoice) :
    StreamAct.closedChan ∉ pollActs fr ch := by
  cases hd : (pollDeliver fr ch).1 <;> simp [pollActs, hd]

theorem pollActs_pos (fr : Except GoErr Updates) (ch : SelectChoice) :
    ∀ a ∈ pollActs fr ch, (a != StreamAct.closedChan) = true := by
  intro a ha
  have hne : a ≠ StreamAct.closedChan := by
    intro hc
    subst hc
    exact closed_not_mem_pollActs fr ch ha
  simpa using hne

theorem closed_mem_loopRun (evs : List LoopEvent) :
    StreamAct.closedChan ∈ loopRun evs ↔ LoopEvent.ctxDone ∈ evs := by
  induction evs with
  | nil => simp [loopRun]
  | cons e rest ih =>
    cases e with
    | ctxDone => simp [loopRun]
    | tick fr ch =>
      rw [loopRun, List.mem_append]
      simp [closed_not_mem_pollActs fr ch, ih]

theorem afterClose_loopRun (evs : List LoopEvent) :
    actsAfterClose (loopRun evs) = [] := by
  induction evs with
  | nil => rfl
  | cons e rest ih =>
    cases e with
    | ctxDone => rfl
    | tick fr ch =>
      rw [actsAfterClose] at ih
      rw [loopRun, actsAfterClose, List.dropWhile_append_of_pos (pollActs_pos fr ch)]
      exact ih

theorem countFetched_append (l1 l2 : List StreamAct) :
    countFetched (l1 ++ l2) = countFetched l1 + countFetched l2 := by
  induction l1 with
  | nil => simp [countFetched]
  | cons a l ih =>
    cases a <;> simp [countFetched, ih] <;> omega

theorem countFetched_pollActs (fr : Except GoErr Updates) (ch : SelectChoice) :
    countFetched (pollActs fr ch) = 1 := by
  cases hd : (pollDeliver fr ch).1 <;> simp [pollActs, hd, countFetched]

theorem countFetched_loopRun (evs : List LoopEvent) :
    countFetched (loopRun evs) = countTicksUntilDone evs := by
  induction evs with
  | nil => rfl
  | cons e rest ih =>
    cases e with
    | ctxDone => rfl
    | tick fr ch =>
      rw [loopRun, countFetched_append, countFetched_pollActs, ih, countTicksUntilDone]
      omega

/-- C5 counterexample: a poll that successfully decodes a non-empty
Updates value (one changed item) is nevertheless not delivered to the
stream channel when the delivery select observes the fired cancellation
signal, so delivery is not equivalent to non-emptiness. -/
theorem pollUpdates_nonempty_dropped_on_cancel :
    Client.makeRequest { Config := DefaultConfig } wWorld freshCtx "updates.json" wDec =
      Except.ok u456 ∧
    u456.hasUpdates = true ∧
    (Client.pollUpdates { Config := DefaultConfig } wWorld freshCtx wDec
      SelectChoice.ctxDone).1 = none := by
  refine ⟨by decide, by decide, by decide⟩

/-- C5 (amended): a successfully decoded Updates value is delivered to
the stream channel iff at least one of its two sequences is non-empty
and the delivery select takes the send branch (the cancellation signal
has not claimed the select); an Updates with both sequences empty is
never forwarded, whatever the select outcome. -/
theorem pollUpdates_delivers_iff_nonempty (c : Client) (world : HttpWorld)
    (ctx : CtxState) (dec : String → Option Updates) (choice : SelectChoice) (u : Updates)
    (hm : c.makeRequest world ctx "updates.json" dec = Except.ok u) :
    ((c.pollUpdates world ctx dec choice).1 = some u ↔
      (u.hasUpdates = true ∧ choice = SelectChoice.send)) ∧
    (u.hasUpdates = false → (c.pollUpdates world ctx dec choice).1 = none) := by
  rw [Client.pollUpdates, hm]
  constructor
  · constructor
    · intro h
      by_cases hu : u.hasUpdates
      · cases choice with
        | send => exact ⟨hu, rfl⟩
        | ctxDone => simp [pollDeliver, hu] at h
      · simp [pollDeliver, hu] at h
    · rintro ⟨hu, hch⟩
      subst hch
      simp [pollDeliver, hu]
  · intro hu
    simp [pollDeliver, hu]

/-- C5 witness: the default client delivering the non-empty decoded
value when the select takes the send branch. -/
theorem pollUpdates_delivers_iff_nonempty_witness :
    (Client.pollUpdates { Config := DefaultConfig } wWorld freshCtx wDec
      SelectChoice.send).1 = some u456 :=
  ((pollUpdates_delivers_iff_nonempty { Config := DefaultConfig } wWorld freshCtx wDec
    SelectChoice.send u456 (by decide)).1).mpr ⟨by decide, rfl⟩

/-- C6: the stream channel closes exactly when the loop observes the
fired cancellation signal (the close action occurs iff a ctx.Done event
occurs among the loop's triggers), a failed poll contributes its fetch
and nothing else — no delivery, no close, the loop proceeds — and no
action of any kind follows the close. -/
theorem startUpdates_closes_only_on_cancel (fr0 : Except GoErr Updates)
    (choice0 : SelectChoice) (evs : List LoopEvent) :
    (StreamAct.closedChan ∈ startUpdatesRun fr0 choice0 evs ↔ LoopEvent.ctxDone ∈ evs) ∧
    (∀ (e : GoErr) (ch : SelectChoice), pollActs (Except.error e) ch = [StreamAct.fetched]) ∧
    actsAfterClose (startUpdatesRun fr0 choice0 evs) = [] := by
  refine ⟨?_, fun e ch => rfl, ?_⟩
  · rw [startUpdatesRun, List.mem_append]
    simp [closed_not_mem_pollActs fr0 choice0, closed_mem_loopRun]
  · have h := afterClose_loopRun evs
    rw [actsAfterClose] at h
    rw [startUpdatesRun, actsAfterClose,
      List.dropWhile_append_of_pos (pollActs_pos fr0 choice0)]
    exact h

/-- C6 witness: a run whose only trigger is the fired cancellation
signal closes the stream. -/
theorem startUpdates_closes_only_on_cancel_witness :
    StreamAct.closedChan ∈ startUpdatesRun (Except.ok u456) SelectChoice.send
      [LoopEvent.ctxDone] :=
  (startUpdates_closes_only_on_cancel (Except.ok u456) SelectChoice.send
    [LoopEvent.ctxDone]).1.mpr (by decide)

/-- C7: the polling goroutine fetches once immediately on start — the
first action of every behaviour is a fetch, preceding every ticker
event — and thereafter exactly one fetch per consumed ticker event; in
particular a non-empty first poll is delivered before any tick, so the
first stream value does not wait for one full interval. -/
theorem startUpdates_immediate_poll (fr0 : Except GoErr Updates) (choice0 : SelectChoice)
    (evs : List LoopEvent) :
    (startUpdatesRun fr0 choice0 evs).head? = some StreamAct.fetched ∧
    countFetched (startUpdatesRun fr0 choice0 evs) = 1 + countTicksUntilDone evs ∧
    (∀ u : Updates, u.hasUpdates = true →
      startUpdatesRun (Except.ok u) SelectChoice.send evs =
        StreamAct.fetched :: StreamAct.delivered u :: loopRun evs) := by
  refine ⟨rfl, ?_, ?_⟩
  · rw [startUpdatesRun, countFetched_append, countFetched_pollActs, countFetched_loopRun]
  · intro u hu
    simp [startUpdatesRun, pollActs, pollDeliver, hu]

/-- C7 witness: a non-empty immediate poll is delivered as the second
action, before any ticker event is consumed. -/
theorem startUpdates_immediate_poll_witness :
    startUpdatesRun (Except.ok u456) SelectChoice.send [] =
      StreamAct.fetched :: StreamAct.delivered u456 :: loopRun [] :=
  (startUpdates_immediate_poll (Except.ok u456) SelectChoice.send []).2.2 u456 (by decide)

/-- C10: StartUpdates returns a non-nil channel (the freshly allocated
one-slot buffered channel) and a nil error, for every client, context and
loop behaviour, so a caller's error check on it can never fire. -/
theorem startUpdates_returns_channel_and_nil_error (c : Client) (ctx : CtxState)
    (fr0 : Except GoErr Updates) (choice0 : SelectChoice) (evs : List LoopEvent) :
    (c.StartUpdates ctx fr0 choice0 evs).1 = (some { buffer := 1 }, none) := rfl

/-- C8: makeRequest never consumes Config.RequestTimeout — its result is
invariant under arbitrary changes of that field — and concretely the
default client completes a fetch whose transaction takes 20 seconds,
twice the configured 10-second default deadline, successfully instead of
failing with a timeout. -/
theorem makeRequest_requestTimeout_inert :
    (∀ (cfg : Config) (t : Nat) (world : HttpWorld) (ctx : CtxState) (ep : String)
        (α : Type) (dec : String → Option α),
      Client.makeRequest { Config := { cfg with RequestTimeout := t } } world ctx ep dec =
        Client.makeRequest { Config := cfg } world ctx ep dec) ∧
    Client.makeRequest { Config := DefaultConfig } slowWorld freshCtx "item/1.json"
      (fun _ => some (42 : Nat)) = Except.ok 42 ∧
    DefaultConfig.RequestTimeout = 10 * second ∧
    DefaultConfig.RequestTimeout <
      (slowWorld (DefaultConfig.BaseURL ++ "item/1.json")).elapsed := by
  exact ⟨fun cfg t world ctx ep α dec => rfl, by decide, rfl, by decide⟩

end HNApi
